import Mathlib

/-!
Verification of the mixed-language utterance pipeline and the tolerant
structured-extraction protocol of the bilingual tutoring repository.
The definitions below are shallow embeddings of the TypeScript code in
src/services/geminiService.ts (web client) and src/services/voiceService.ts
(native client).  Strings are modelled as lists of characters.
-/

namespace VictorAI

/-- Characters matched by the JavaScript regex class for whitespace,
as used by the cleaning regex, the splitting regex and the fence regex. -/
def jsWhitespace (c : Char) : Bool :=
  c == ' ' || c == Char.ofNat 9 || c == Char.ofNat 10 || c == Char.ofNat 11 ||
  c == Char.ofNat 12 || c == Char.ofNat 13 || c == Char.ofNat 0xa0 ||
  c == Char.ofNat 0x1680 ||
  (decide (0x2000 ≤ c.toNat) && decide (c.toNat ≤ 0x200a)) ||
  c == Char.ofNat 0x2028 || c == Char.ofNat 0x2029 || c == Char.ofNat 0x202f ||
  c == Char.ofNat 0x205f || c == Char.ofNat 0x3000 || c == Char.ofNat 0xfeff

/-- Scanner for the global regex replace that deletes parenthesized asides:
the pattern is an opening parenthesis, then any characters that are not a
closing parenthesis, then a closing parenthesis.  The Boolean flag records
whether the scanner is currently inside a match being deleted.  An opening
parenthesis with no closing parenthesis anywhere after it cannot start a
match and is kept verbatim, exactly as the regex engine behaves. -/
def stripGo : Bool → List Char → List Char
  | _, [] => []
  | true, c :: rest => if c = ')' then stripGo false rest else stripGo true rest
  | false, c :: rest =>
    if c = '(' then
      if rest.contains ')' then stripGo true rest else c :: stripGo false rest
    else c :: stripGo false rest

/-- Models the source expression replacing parenthesized asides by nothing. -/
def stripParens (l : List Char) : List Char := stripGo false l

/-- Scanner for the global regex replace collapsing each maximal whitespace
run to a single space.  The flag records whether the previous character was
whitespace, so only the first character of a run emits the space. -/
def collapseGo : Bool → List Char → List Char
  | _, [] => []
  | prevWs, c :: rest =>
    if jsWhitespace c then
      if prevWs then collapseGo true rest else ' ' :: collapseGo true rest
    else c :: collapseGo false rest

/-- Models the source expression collapsing whitespace runs to single spaces. -/
def collapseWs (l : List Char) : List Char := collapseGo false l

/-- Removes the maximal whitespace suffix, keeping interior whitespace. -/
def trimRight : List Char → List Char
  | [] => []
  | c :: rest =>
    if jsWhitespace c then
      match trimRight rest with
      | [] => []
      | r => c :: r
    else c :: trimRight rest

/-- Models the JavaScript trim call: drop whitespace from both ends. -/
def trim (l : List Char) : List Char := trimRight (l.dropWhile jsWhitespace)

/-- The cleaning pre-pass of the speak methods: strip parenthesized asides,
collapse whitespace runs to single spaces, trim both ends. -/
def clean (l : List Char) : List Char := trim (collapseWs (stripParens l))

/-- Maximal runs of characters of equal whitespace class, in order. -/
def chunks : List Char → List (List Char)
  | [] => []
  | [c] => [[c]]
  | c :: d :: rest =>
    match chunks (d :: rest) with
    | [] => [[c]]
    | g :: gs =>
      if jsWhitespace c = jsWhitespace d then (c :: g) :: gs else [c] :: g :: gs

/-- Whether a chunk is a whitespace chunk, judged by its first character. -/
def isWsChunk : List Char → Bool
  | [] => false
  | c :: _ => jsWhitespace c

/-- Models the JavaScript split on a captured whitespace-run pattern:
the separators are kept, and an empty string element appears before a
leading separator and after a trailing separator; splitting the empty
string yields one empty element. -/
def tokenize (l : List Char) : List (List Char) :=
  match chunks l with
  | [] => [[]]
  | g :: gs =>
    (if isWsChunk g then [([] : List Char), g] else [g]) ++ gs ++
      (if isWsChunk (((g :: gs).getLast?).getD []) then [([] : List Char)] else [])

/-- Language tags of the web client segmenter. -/
inductive WebLang
  | enUS
  | ruRU
deriving DecidableEq

/-- Language tags of the native client segmenter. -/
inductive NativeLang
  | en
  | ru
deriving DecidableEq

/-- A run produced by the web client segmenter. -/
structure Run where
  lang : WebLang
  text : List Char
deriving DecidableEq

/-- A run produced by the native client segmenter. -/
structure RunN where
  lang : NativeLang
  text : List Char
deriving DecidableEq

/-- The character class of the language-detection regex: the two main
Cyrillic letter ranges plus the two letters outside them. -/
def isCyrChar (c : Char) : Bool :=
  (decide ('а' ≤ c) && decide (c ≤ 'я')) ||
  (decide ('А' ≤ c) && decide (c ≤ 'Я')) ||
  c == 'ё' || c == 'Ё'

/-- The isRussian test of both speak methods: the token contains at least
one character of the Cyrillic class. -/
def isRussian (w : List Char) : Bool := w.any isCyrChar

/-- The whitespace-token test of both speak methods: one or more
whitespace characters and nothing else. -/
def isWsToken (w : List Char) : Bool := !w.isEmpty && w.all jsWhitespace

/-- Classification of a token by the web client. -/
def tokLangWeb (w : List Char) : WebLang :=
  if isRussian w then WebLang.ruRU else WebLang.enUS

/-- Classification of a token by the native client. -/
def tokLangNative (w : List Char) : NativeLang :=
  if isRussian w then NativeLang.ru else NativeLang.en

/-- The grouping loop of the web speak method.  State: the current language
(null before the first word token), the buffer of the open run, and the
closed runs.  A whitespace token is appended to the buffer; a word token
either opens the state, extends the run of equal classification, or closes
the run and opens a new one.  At the end a nonempty buffer is pushed with
the current language; the source uses a non-null assertion there, modelled
by a default that is provably never used on cleaned input. -/
def buildRunsWeb : Option WebLang → List Char → List Run → List (List Char) → List Run
  | cl, buf, gs, [] =>
    if buf.isEmpty then gs else gs ++ [⟨cl.getD WebLang.enUS, buf⟩]
  | cl, buf, gs, w :: rest =>
    if isWsToken w then buildRunsWeb cl (buf ++ w) gs rest
    else
      match cl with
      | none => buildRunsWeb (some (tokLangWeb w)) w gs rest
      | some l =>
        if tokLangWeb w = l then buildRunsWeb cl (buf ++ w) gs rest
        else buildRunsWeb (some (tokLangWeb w)) w (gs ++ [⟨l, buf⟩]) rest

/-- The grouping loop of the native speak method, transcribed separately. -/
def buildRunsNative : Option NativeLang → List Char → List RunN → List (List Char) → List RunN
  | cl, buf, gs, [] =>
    if buf.isEmpty then gs else gs ++ [⟨cl.getD NativeLang.en, buf⟩]
  | cl, buf, gs, w :: rest =>
    if isWsToken w then buildRunsNative cl (buf ++ w) gs rest
    else
      match cl with
      | none => buildRunsNative (some (tokLangNative w)) w gs rest
      | some l =>
        if tokLangNative w = l then buildRunsNative cl (buf ++ w) gs rest
        else buildRunsNative (some (tokLangNative w)) w (gs ++ [⟨l, buf⟩]) rest

/-- The segmentation phase of the web speak method. -/
def segmentWeb (text : List Char) : List Run :=
  buildRunsWeb none [] [] (tokenize (clean text))

/-- The segmentation phase of the native speak method. -/
def segmentNative (text : List Char) : List RunN :=
  buildRunsNative none [] [] (tokenize (clean text))

/-- Renaming of the native language tags into the web language tags. -/
def langMap : NativeLang → WebLang
  | NativeLang.ru => WebLang.ruRU
  | NativeLang.en => WebLang.enUS

/-- Renaming of a native run into a web run. -/
def mapRunN (r : RunN) : Run := ⟨langMap r.lang, r.text⟩

/-!
Synthesis orchestrator.  The web speak method drives the backend through a
chain of utterance-end callbacks: speakGroup i fires the completion callback
when i is past the end of the group list, and otherwise hands utterance i to
the backend with an end handler that invokes speakGroup on i plus one.  The
stopSpeaking method calls the backend cancel, which removes all queued and
active utterances, so their end events are never delivered (the backend
fires an error event for a cancelled utterance, and the code installs no
error handler).  The state below records the group list, the utterance
whose end event may still be delivered, the indices handed to the backend
in order, whether the completion callback has fired, and whether cancel was
called. -/
structure SynthState where
  groups : List Run
  pending : Option Nat
  issued : List Nat
  done : Bool
  cancelled : Bool
deriving DecidableEq

/-- Models one invocation of speakGroup at index i: past the end it fires
the completion callback, otherwise it issues utterance i to the backend and
waits for its end event. -/
def speakGroup (st : SynthState) (i : Nat) : SynthState :=
  if i < st.groups.length then
    { st with pending := some i, issued := st.issued ++ [i] }
  else
    { st with pending := none, done := true }

/-- Models the speak method after segmentation: with at least one group it
calls speakGroup at index zero, otherwise it invokes the completion
callback immediately with no backend call. -/
def startSpeak (groups : List Run) : SynthState :=
  if 0 < groups.length then
    speakGroup { groups := groups, pending := none, issued := [], done := false, cancelled := false } 0
  else
    { groups := groups, pending := none, issued := [], done := true, cancelled := false }

/-- Externally driven events: the backend delivers the end event of the
pending utterance, or the caller invokes stopSpeaking. -/
inductive Ev
  | finish
  | stop
deriving DecidableEq

/-- Event semantics.  An end event for the pending utterance i runs its
handler, speakGroup at i plus one; with no pending utterance there is no
end event to deliver, so finish is a no-op.  stopSpeaking calls the backend
cancel: the queued and active utterances are removed, hence no utterance is
pending afterwards and no end handler of this job can run again. -/
def stepEv (st : SynthState) : Ev → SynthState
  | Ev.finish =>
    match st.pending with
    | some i => speakGroup { st with pending := none } (i + 1)
    | none => st
  | Ev.stop => { st with pending := none, cancelled := true }

/-- Runs a list of events from a state, in order. -/
def runEvents (st : SynthState) (evs : List Ev) : SynthState :=
  evs.foldl stepEv st

/-!
Structured response extractor.  The raw completion text is probed by two
regexes: the greedy outer-brace pattern, and the fenced code block labeled
json.  The matched substring is handed to the JSON parser; a parse failure
throws into the catch block, which returns fixed defaults.  JSON values are
modelled below; numeric values are stored as the integer part of the parsed
number, which is adequate here because no claim inspects a numeric value,
while parse success and failure follow the JSON grammar. -/
inductive Json where
  | null
  | bool (b : Bool)
  | num (n : Int)
  | str (s : String)
  | arr (elems : List Json)
  | obj (fields : List (String × Json))

/-- The opening brace character. -/
def lbrace : Char := Char.ofNat 123

/-- The closing brace character. -/
def rbrace : Char := Char.ofNat 125

/-- JSON insignificant whitespace: space, tab, line feed, carriage return. -/
def jsonWs (c : Char) : Bool :=
  c == ' ' || c == Char.ofNat 9 || c == Char.ofNat 10 || c == Char.ofNat 13

/-- Decimal digit test. -/
def isDigit (c : Char) : Bool := decide ('0' ≤ c) && decide (c ≤ '9')

/-- Value of a hexadecimal digit, if any. -/
def hexVal (c : Char) : Option Nat :=
  if isDigit c then some (c.toNat - 48)
  else if decide ('a' ≤ c) && decide (c ≤ 'f') then some (c.toNat - 87)
  else if decide ('A' ≤ c) && decide (c ≤ 'F') then some (c.toNat - 55)
  else none

/-- Parses the body of a JSON string after the opening quote, returning the
content and the remainder after the closing quote.  The JSON escapes are
handled; an unescaped control character or an unknown escape fails. -/
def parseStr : List Char → Option (List Char × List Char)
  | [] => none
  | c :: rest =>
    if c = '"' then some ([], rest)
    else if c = '\\' then
      match rest with
      | [] => none
      | e :: rest2 =>
        if e = '"' then (parseStr rest2).map (fun p => ('"' :: p.1, p.2))
        else if e = '\\' then (parseStr rest2).map (fun p => ('\\' :: p.1, p.2))
        else if e = '/' then (parseStr rest2).map (fun p => ('/' :: p.1, p.2))
        else if e = 'b' then (parseStr rest2).map (fun p => (Char.ofNat 8 :: p.1, p.2))
        else if e = 'f' then (parseStr rest2).map (fun p => (Char.ofNat 12 :: p.1, p.2))
        else if e = 'n' then (parseStr rest2).map (fun p => (Char.ofNat 10 :: p.1, p.2))
        else if e = 'r' then (parseStr rest2).map (fun p => (Char.ofNat 13 :: p.1, p.2))
        else if e = 't' then (parseStr rest2).map (fun p => (Char.ofNat 9 :: p.1, p.2))
        else if e = 'u' then
          match rest2 with
          | h1 :: h2 :: h3 :: h4 :: rest3 =>
            match hexVal h1, hexVal h2, hexVal h3, hexVal h4 with
            | some a, some b, some c2, some d =>
              (parseStr rest3).map
                (fun p => (Char.ofNat (a * 4096 + b * 256 + c2 * 16 + d) :: p.1, p.2))
            | _, _, _, _ => none
          | _ => none
        else none
    else if c.toNat < 32 then none
    else (parseStr rest).map (fun p => (c :: p.1, p.2))

/-- Numeric value of a list of decimal digits. -/
def digitsVal (ds : List Char) : Nat :=
  ds.foldl (fun a c => a * 10 + (c.toNat - 48)) 0

/-- Consumes an exponent part if it is well formed, else leaves the input
untouched so that the surrounding structure parser fails on the stray
character, as the JavaScript parser does. -/
def expRest (r : List Char) : List Char :=
  match r with
  | e :: s =>
    if e = 'e' ∨ e = 'E' then
      match s with
      | sgn :: s2 =>
        if sgn = '+' ∨ sgn = '-' then
          if (s2.takeWhile isDigit).isEmpty then r else s2.dropWhile isDigit
        else
          if (s.takeWhile isDigit).isEmpty then r else s.dropWhile isDigit
      | [] => r
    else r
  | [] => r

/-- Parses a JSON number at the head of the input.  The stored value is the
integer part; the fraction and exponent are consumed for parse success
only.  A leading zero followed by another digit stops after the zero, so
the caller fails on the extra digit, matching the JSON grammar. -/
def parseNum (l : List Char) : Option (Json × List Char) :=
  let sign : Bool × List Char := match l with
    | '-' :: r => (true, r)
    | _ => (false, l)
  match sign.2 with
  | c :: _ =>
    if isDigit c then
      let ds0 := sign.2.takeWhile isDigit
      let more :=
        if 1 < ds0.length ∧ ds0.headD ' ' = '0' then (['0'], sign.2.drop 1)
        else (ds0, sign.2.dropWhile isDigit)
      let n : Int := Int.ofNat (digitsVal more.1)
      let r1 := more.2
      let r2 :=
        match r1 with
        | '.' :: s => if (s.takeWhile isDigit).isEmpty then r1 else s.dropWhile isDigit
        | _ => r1
      some (Json.num (if sign.1 then -n else n), expRest r2)
    else none
  | [] => none

/-- Mode of the fuel-indexed JSON parser: a value, the remaining elements
of an array, or the remaining members of an object. -/
inductive PMode
  | val
  | elems (acc : List Json)
  | members (acc : List (String × Json))

/-- Fuel-indexed recursive descent JSON parser.  Fuel decreases on every
nested call and the entry point supplies more fuel than any input can
consume, so exhaustion is unreachable on real inputs. -/
def parseCore : Nat → PMode → List Char → Option (Json × List Char)
  | 0, _, _ => none
  | Nat.succ f, PMode.val, l =>
    let l1 := l.dropWhile jsonWs
    match l1 with
    | [] => none
    | c :: rest =>
      if c = lbrace then
        let l2 := rest.dropWhile jsonWs
        match l2 with
        | d :: rest2 =>
          if d = rbrace then some (Json.obj [], rest2)
          else parseCore f (PMode.members []) l2
        | [] => none
      else if c = '[' then
        let l2 := rest.dropWhile jsonWs
        match l2 with
        | d :: rest2 =>
          if d = ']' then some (Json.arr [], rest2)
          else parseCore f (PMode.elems []) l2
        | [] => none
      else if c = '"' then
        match parseStr rest with
        | some p => some (Json.str (String.mk p.1), p.2)
        | none => none
      else if c = 't' then
        if rest.take 3 = "rue".toList then some (Json.bool true, rest.drop 3) else none
      else if c = 'f' then
        if rest.take 4 = "alse".toList then some (Json.bool false, rest.drop 4) else none
      else if c = 'n' then
        if rest.take 3 = "ull".toList then some (Json.null, rest.drop 3) else none
      else parseNum l1
  | Nat.succ f, PMode.members acc, l =>
    let l1 := l.dropWhile jsonWs
    match l1 with
    | '"' :: rest =>
      match parseStr rest with
      | some kp =>
        let r2 := kp.2.dropWhile jsonWs
        match r2 with
        | ':' :: r3 =>
          match parseCore f PMode.val r3 with
          | some vp =>
            let r5 := vp.2.dropWhile jsonWs
            match r5 with
            | [] => none
            | d :: r6 =>
              if d = ',' then
                parseCore f (PMode.members (acc ++ [(String.mk kp.1, vp.1)])) r6
              else if d = rbrace then
                some (Json.obj (acc ++ [(String.mk kp.1, vp.1)]), r6)
              else none
          | none => none
        | _ => none
      | none => none
    | _ => none
  | Nat.succ f, PMode.elems acc, l =>
    match parseCore f PMode.val l with
    | some vp =>
      let r2 := vp.2.dropWhile jsonWs
      match r2 with
      | ',' :: r3 => parseCore f (PMode.elems (acc ++ [vp.1])) r3
      | ']' :: r3 => some (Json.arr (acc ++ [vp.1]), r3)
      | _ => none
    | none => none

/-- Models JSON.parse: parse one value and require only whitespace after
it; any failure is an exception in the source, modelled as none. -/
def Json.parseChars (l : List Char) : Option Json :=
  match parseCore (2 * l.length + 2) PMode.val l with
  | some p => if (p.2.dropWhile jsonWs).isEmpty then some p.1 else none
  | none => none

/-- Models the greedy outer-brace regex match: from the first opening brace
to the last closing brace, provided the latter comes after the former. -/
def braceMatch (l : List Char) : Option (List Char) :=
  match l.findIdx? (fun c => c == lbrace), l.reverse.findIdx? (fun c => c == rbrace) with
  | some i, some jr =>
    let j := l.length - 1 - jr
    if i < j then some ((l.drop i).take (j - i + 1)) else none
  | _, _ => none

/-- Prefix test on character lists, pattern first. -/
def startsWith : List Char → List Char → Bool
  | [], _ => true
  | _ :: _, [] => false
  | p :: ps, c :: cs => p == c && startsWith ps cs

/-- After the captured closing brace the fence regex requires optional
whitespace and then three backticks. -/
def afterCaptureOk (xs : List Char) : Bool :=
  startsWith ("```".toList) (xs.dropWhile jsWhitespace)

/-- Greedy capture of the fence regex: the longest prefix of the body that
starts at the opening brace and ends at a closing brace followed by
optional whitespace and three backticks. -/
def fenceCapture (body : List Char) : Option (List Char) :=
  (((List.range body.length).filter
      (fun e => body.getD e ' ' == rbrace && afterCaptureOk (body.drop (e + 1)))).getLast?).map
    (fun e => body.take (e + 1))

/-- Attempt of the fence regex at one start position: the literal tag,
optional whitespace, an opening brace, then the greedy capture. -/
def fenceTryAt (l : List Char) : Option (List Char) :=
  if startsWith ("```json".toList) l then
    let body := (l.drop 7).dropWhile jsWhitespace
    match body with
    | c :: _ => if c = lbrace then fenceCapture body else none
    | [] => none
  else none

/-- Models the fence regex match: leftmost start position that matches. -/
def fenceMatch : List Char → Option (List Char)
  | [] => none
  | c :: rest =>
    match fenceTryAt (c :: rest) with
    | some r => some r
    | none => fenceMatch rest

/-- The strategy chain of both extraction call sites: the brace match is
parsed when present, and a parse failure there throws to the catch, so the
fence match is consulted only when no brace match exists at all. -/
def strategyValue (l : List Char) : Option Json :=
  match braceMatch l with
  | some s => Json.parseChars s
  | none =>
    match fenceMatch l with
    | some s => Json.parseChars s
    | none => none

/-- JavaScript truthiness of a parsed JSON value. -/
def jsTruthy : Json → Bool
  | Json.null => false
  | Json.bool b => b
  | Json.num n => decide (n ≠ 0)
  | Json.str s => !s.isEmpty
  | Json.arr _ => true
  | Json.obj _ => true

/-- Property access on a parsed JSON value; on objects a later duplicate
key wins, as in JavaScript; on non-objects the result is undefined. -/
def Json.getProp : Json → String → Option Json
  | Json.obj fs, k => (fs.reverse.find? (fun p => p.1 == k)).map (fun p => p.2)
  | _, _ => none

/-- The length property of a parsed JSON value: string and array lengths,
or a length member of an object; undefined otherwise. -/
def jsLengthProp : Json → Option Json
  | Json.str s => some (Json.num (Int.ofNat s.length))
  | Json.arr xs => some (Json.num (Int.ofNat xs.length))
  | Json.obj fs => Json.getProp (Json.obj fs) "length"
  | _ => none

/-- Models the comparison of a possibly undefined value with zero.
Undefined and null compare false; numbers compare directly; true coerces
to one.  String coercion to number is not modelled: it is exercised only
when an object carries a string length member, which no claim involves. -/
def jsGtZero : Option Json → Bool
  | some (Json.num n) => decide (0 < n)
  | some (Json.bool b) => b
  | _ => false

/-- The logical-or defaulting idiom: a truthy value passes through,
otherwise the default is used. -/
def jsOrDefault (v : Option Json) (d : Json) : Json :=
  match v with
  | some j => if jsTruthy j then j else d
  | none => d

/-- The logical-or-undefined idiom: a truthy value passes through,
otherwise the field is undefined. -/
def jsOrUndefined (v : Option Json) : Option Json :=
  match v with
  | some j => if jsTruthy j then some j else none
  | none => none

/-- The runtime shape of the record built by generateVictorAIResponse.
The fields hold the raw values the JavaScript code passes through, which
the declared interface does not always match. -/
structure VictorResult where
  response : Json
  corrections : Option Json
  vocabularyTip : Option Json
  pronunciationTip : Option Json
  followUpQuestion : Json

/-- The record returned by the catch block of generateVictorAIResponse. -/
def victorCatchDefault : VictorResult :=
  { response := Json.str "I\u0027m sorry, I had trouble processing that. Could you try again? I\u0027m here to help you learn Russian!"
  , corrections := none
  , vocabularyTip := none
  , pronunciationTip := none
  , followUpQuestion := Json.str "What Russian words or phrases would you like to practice today?" }

/-- The field-level extraction of generateVictorAIResponse from a parsed
value, transcribing each field expression of the return statement. -/
def victorFieldExtract (p : Json) : VictorResult :=
  { response := jsOrDefault (Json.getProp p "response")
      (Json.str "I\u0027m here to help you learn Russian!")
  , corrections :=
      match Json.getProp p "corrections" with
      | some c => if jsTruthy c && jsGtZero (jsLengthProp c) then some c else none
      | none => none
  , vocabularyTip := jsOrUndefined (Json.getProp p "vocabularyTip")
  , pronunciationTip := jsOrUndefined (Json.getProp p "pronunciationTip")
  , followUpQuestion := jsOrDefault (Json.getProp p "followUpQuestion")
      (Json.str "What Russian phrase would you like to learn?") }

/-- The extraction portion of generateVictorAIResponse: the strategy chain
followed by field-level extraction, with the catch defaults on failure. -/
def generateVictorAIResponse (raw : List Char) : VictorResult :=
  match strategyValue raw with
  | some p => victorFieldExtract p
  | none => victorCatchDefault

/-- The runtime shape of the record returned by fetchWordData. -/
structure WordResult where
  phonetic : Json
  examples : Json
  translation : Json

/-- The record returned by the catch block of fetchWordData. -/
def wordCatchDefault : WordResult :=
  { phonetic := Json.str "", examples := Json.arr [], translation := Json.str "" }

/-- The field-level extraction of fetchWordData from a parsed value. -/
def wordFieldExtract (p : Json) : WordResult :=
  { phonetic := jsOrDefault (Json.getProp p "phonetic") (Json.str "")
  , examples := jsOrDefault (Json.getProp p "examples") (Json.arr [])
  , translation := jsOrDefault (Json.getProp p "translation") (Json.str "") }

/-- The extraction portion of fetchWordData. -/
def fetchWordData (raw : List Char) : WordResult :=
  match strategyValue raw with
  | some p => wordFieldExtract p
  | none => wordCatchDefault

/-! Lemmas about the cleaning and tokenizing passes. -/

/-- The first chunk of a nonempty list starts with its first character. -/
theorem chunks_cons : ∀ (rest : List Char) (c : Char),
    ∃ g gs, chunks (c :: rest) = (c :: g) :: gs
  | [], _ => ⟨[], [], rfl⟩
  | d :: rest2, c => by
    obtain ⟨g, gs, h⟩ := chunks_cons rest2 d
    by_cases hc : jsWhitespace c = jsWhitespace d
    · exact ⟨d :: g, gs, by simp [chunks, h, hc]⟩
    · exact ⟨[], (d :: g) :: gs, by simp [chunks, h, hc]⟩

/-- Chunking preserves the content of the list. -/
theorem join_chunks : ∀ l : List Char, (chunks l).join = l
  | [] => rfl
  | [c] => by simp [chunks]
  | c :: d :: rest => by
    obtain ⟨g, gs, h⟩ := chunks_cons rest d
    have ih := join_chunks (d :: rest)
    rw [h] at ih
    by_cases hc : jsWhitespace c = jsWhitespace d
    · simp only [chunks, h, hc, if_true]
      simp only [List.join] at ih ⊢
      simpa using ih
    · simp only [chunks, h, hc, if_false]
      simp only [List.join] at ih ⊢
      simpa using ih

/-- The empty list is the only list with no chunks. -/
theorem chunks_eq_nil : ∀ l : List Char, chunks l = [] → l = []
  | [], _ => rfl
  | c :: rest, h => by
    obtain ⟨g, gs, hg⟩ := chunks_cons rest c
    rw [hg] at h
    exact absurd h (by simp)

/-- Splitting preserves the content of the list. -/
theorem join_tokenize (l : List Char) : (tokenize l).join = l := by
  unfold tokenize
  cases h : chunks l with
  | nil => simpa using (chunks_eq_nil l h).symm
  | cons g gs =>
    have hj : (chunks l).join = l := join_chunks l
    rw [h] at hj
    by_cases h1 : isWsChunk g = true <;>
      by_cases h2 : isWsChunk (((g :: gs).getLast?).getD []) = true <;>
        simp_all [List.join_append]

/-- After the grouping loop has a current language, the texts of the
produced runs concatenate to the already closed texts, the buffer and the
remaining tokens. -/
theorem build_join : ∀ (ts : List (List Char)) (l : WebLang) (buf : List Char) (gs : List Run),
    ((buildRunsWeb (some l) buf gs ts).map Run.text).join
      = ((gs.map Run.text).join ++ buf) ++ ts.join
  | [], l, buf, gs => by
    by_cases hb : buf.isEmpty
    · have : buf = [] := by simpa using hb
      simp [buildRunsWeb, hb, this]
    · simp [buildRunsWeb, hb]
  | w :: rest, l, buf, gs => by
    by_cases hw : isWsToken w
    · simp only [buildRunsWeb, hw, if_true]
      rw [build_join rest l (buf ++ w) gs]
      simp [List.append_assoc]
    · by_cases hl : tokLangWeb w = l
      · simp only [buildRunsWeb, hw, if_false, Bool.false_eq_true, hl, if_true]
        rw [build_join rest l (buf ++ w) gs]
        simp [List.append_assoc]
      · simp only [buildRunsWeb, hw, if_false, Bool.false_eq_true, hl]
        rw [build_join rest (tokLangWeb w) w (gs ++ [Run.mk l buf])]
        simp [List.append_assoc]

/-- The head of the remainder of dropWhile does not satisfy the test. -/
theorem dropWhile_head_false : ∀ (l : List Char) (c : Char) (t : List Char),
    l.dropWhile jsWhitespace = c :: t → jsWhitespace c = false
  | [], _, _, h => by simp at h
  | a :: l2, c, t, h => by
    by_cases ha : jsWhitespace a = true
    · rw [List.dropWhile_cons_of_pos (by simpa using ha)] at h
      exact dropWhile_head_false l2 c t h
    · rw [List.dropWhile_cons_of_neg (by simpa using ha)] at h
      cases h
      simpa using ha

/-- trimRight returns a prefix: a nonempty result keeps the head. -/
theorem trimRight_head : ∀ (l : List Char) (c : Char) (t : List Char),
    trimRight l = c :: t → ∃ t0, l = c :: t0
  | [], _, _, h => by simp [trimRight] at h
  | a :: l2, c, t, h => by
    by_cases ha : jsWhitespace a = true
    · simp only [trimRight, ha, if_true] at h
      cases htr : trimRight l2 with
      | nil => rw [htr] at h; simp at h
      | cons x xs =>
        rw [htr] at h
        cases h
        exact ⟨l2, rfl⟩
    · simp only [trimRight, ha, if_false, Bool.false_eq_true] at h
      cases h
      exact ⟨l2, rfl⟩

/-- The cleaned text never starts with whitespace. -/
theorem clean_head (s : List Char) (c : Char) (t : List Char)
    (h : clean s = c :: t) : jsWhitespace c = false := by
  unfold clean trim at h
  obtain ⟨t0, h0⟩ := trimRight_head _ c t h
  exact dropWhile_head_false _ c t0 h0

/-- Claim C1.  Segmentation round-trip: for every input, concatenating the
texts of the runs produced by the segmentation phase of the web speak
method, in order, equals the cleaned input, that is, the input after
stripping parenthesized asides, collapsing whitespace runs to single
spaces, and trimming both ends. -/
theorem segmentation_round_trip (s : List Char) :
    ((segmentWeb s).map Run.text).join = clean s := by
  unfold segmentWeb
  cases hcl : clean s with
  | nil => rfl
  | cons c t =>
    have hcws : jsWhitespace c = false := clean_head s c t hcl
    obtain ⟨g, gs, hch⟩ := chunks_cons t c
    have hwchunk : isWsChunk (c :: g) = false := by simp [isWsChunk, hcws]
    have htok : tokenize (c :: t)
        = (c :: g) :: (gs ++ (if isWsChunk ((((c :: g) :: gs).getLast?).getD []) then [([] : List Char)] else [])) := by
      unfold tokenize
      rw [hch]
      simp [hwchunk]
    have hjoin : ((c :: g) :: (gs ++ (if isWsChunk ((((c :: g) :: gs).getLast?).getD []) then [([] : List Char)] else []))).join = c :: t := by
      rw [← htok]; exact join_tokenize (c :: t)
    have hwt : isWsToken (c :: g) = false := by
      simp [isWsToken, hcws]
    rw [htok]
    simp only [buildRunsWeb, hwt, Bool.false_eq_true, if_false]
    rw [build_join]
    simpa using hjoin

/-! Lemmas about the synthesis orchestrator. -/

/-- The orchestrator state after the speak call and k delivered end
events: utterance k is pending while runs remain, the issued indices are
an initial range, and the completion callback has fired once the runs are
exhausted or the group list was empty from the start. -/
def seqState (groups : List Run) (k : Nat) : SynthState :=
  { groups := groups
  , pending := if k < groups.length then some k else none
  , issued := List.range (min (k + 1) groups.length)
  , done := decide (groups.length ≤ k ∨ groups.length = 0)
  , cancelled := false }

/-- The speak call puts the orchestrator in the state with zero delivered
end events. -/
theorem startSpeak_eq_seqState (groups : List Run) :
    startSpeak groups = seqState groups 0 := by
  by_cases h : 0 < groups.length
  · have h1 : min 1 groups.length = 1 := by omega
    simp [startSpeak, h, speakGroup, seqState, h1]
    exact ⟨by decide, by intro he; rw [he] at h; simp at h⟩
  · have h0 : groups.length = 0 := by omega
    simp [startSpeak, h, seqState, h0]

/-- Delivering one end event advances the sequential state by one. -/
theorem step_finish (groups : List Run) (k : Nat) :
    stepEv (seqState groups k) Ev.finish = seqState groups (k + 1) := by
  by_cases hk : k < groups.length
  · by_cases hk1 : k + 1 < groups.length
    · have e1 : min (k + 1) groups.length = k + 1 := by omega
      have e2 : min (k + 1 + 1) groups.length = k + 1 + 1 := by omega
      have d1 : ¬ groups.length ≤ k := by omega
      have d2 : ¬ groups.length ≤ k + 1 := by omega
      simp [stepEv, seqState, hk, hk1, speakGroup, e1, e2, List.range_succ, d1, d2]
    · have e1 : min (k + 1) groups.length = k + 1 := by omega
      have e2 : min (k + 1 + 1) groups.length = k + 1 := by omega
      simp [stepEv, seqState, hk, hk1, speakGroup, e1, e2]
      exact Or.inl (by omega)
  · have hk1 : ¬ k + 1 < groups.length := by omega
    have e2 : min (k + 1 + 1) groups.length = min (k + 1) groups.length := by omega
    have d1 : groups.length ≤ k := by omega
    have d2 : groups.length ≤ k + 1 := by omega
    simp [stepEv, seqState, hk, hk1, e2, d1, d2]

/-- After the speak call, k delivered end events put the orchestrator in
the sequential state with index k. -/
theorem seq_inv (groups : List Run) : ∀ k : Nat,
    runEvents (startSpeak groups) (List.replicate k Ev.finish) = seqState groups k
  | 0 => by simpa [runEvents] using startSpeak_eq_seqState groups
  | k + 1 => by
    rw [List.replicate_succ', runEvents, List.foldl_append]
    have ih := seq_inv groups k
    rw [runEvents] at ih
    rw [ih]
    simpa using step_finish groups k

/-- Reading an initial range of indices out of a list gives its prefix. -/
theorem map_getD_range (L : List Run) (d : Run) : ∀ m : Nat, m ≤ L.length →
    (List.range m).map (fun i => L.getD i d) = L.take m
  | 0, _ => rfl
  | m + 1, h => by
    rw [List.range_succ, List.map_append, map_getD_range L d m (by omega)]
    have hm : m < L.length := by omega
    rw [List.take_succ]
    simp [List.getD_eq_getElem?_getD, List.getElem?_eq_getElem hm]

/-- Claim C2.  Strict sequential synthesis: after the speak call and k
delivered end events, the indices handed to the backend are exactly the
first min (k + 1) n run indices in increasing order, so the backend never
receives run i + 1 before the end signal of run i, and the recorded call
order equals the run order of the segmented input. -/
theorem speak_sequential (s : List Char) (k : Nat) :
    (runEvents (startSpeak (segmentWeb s)) (List.replicate k Ev.finish)).issued
        = List.range (min (k + 1) (segmentWeb s).length) ∧
    (runEvents (startSpeak (segmentWeb s)) (List.replicate k Ev.finish)).issued.length ≤ k + 1 ∧
    (runEvents (startSpeak (segmentWeb s)) (List.replicate k Ev.finish)).issued.map
        (fun i => (segmentWeb s).getD i ⟨WebLang.enUS, []⟩)
        = (segmentWeb s).take (min (k + 1) (segmentWeb s).length) := by
  rw [seq_inv (segmentWeb s) k]
  refine ⟨rfl, ?_, ?_⟩
  · simp [seqState]
  · exact map_getD_range _ _ _ (Nat.min_le_right _ _)

/-- Once nothing is pending and the job is cancelled, no event changes the
state: end events of removed utterances are never delivered and a repeated
stop is idempotent. -/
theorem frozen (st : SynthState) (h1 : st.pending = none) (h2 : st.cancelled = true) :
    ∀ evs : List Ev, runEvents st evs = st
  | [] => rfl
  | e :: evs => by
    have hstep : stepEv st e = st := by
      cases e
      · simp [stepEv, h1]
      · cases st
        simp only [stepEv]
        simp_all
    show runEvents (stepEv st e) evs = st
    rw [hstep]
    exact frozen st h1 h2 evs

/-- Claim C3.  Cancellation silences completion: on a job of at least
three runs, after the end event of run one (which issues run two) and a
stop call before the end of run two, no sequence of further events makes
the completion callback fire, and run three (index two) is never handed to
the backend. -/
theorem stop_silences (s : List Char) (evs : List Ev)
    (h : 3 ≤ (segmentWeb s).length) :
    (runEvents (startSpeak (segmentWeb s)) ([Ev.finish, Ev.stop] ++ evs)).done = false ∧
    2 ∉ (runEvents (startSpeak (segmentWeb s)) ([Ev.finish, Ev.stop] ++ evs)).issued := by
  have h1 : runEvents (startSpeak (segmentWeb s)) [Ev.finish] = seqState (segmentWeb s) 1 :=
    seq_inv (segmentWeb s) 1
  have key : runEvents (startSpeak (segmentWeb s)) ([Ev.finish, Ev.stop] ++ evs)
      = runEvents (stepEv (runEvents (startSpeak (segmentWeb s)) [Ev.finish]) Ev.stop) evs := rfl
  rw [key, h1]
  have hmin : min 2 (segmentWeb s).length = 2 := by omega
  have hstop : stepEv (seqState (segmentWeb s) 1) Ev.stop
      = { groups := segmentWeb s
        , pending := none
        , issued := List.range 2
        , done := decide ((segmentWeb s).length ≤ 1 ∨ (segmentWeb s).length = 0)
        , cancelled := true } := by
    simp [stepEv, seqState, hmin]
  rw [hstop, frozen _ rfl rfl evs]
  constructor
  · simp only [decide_eq_false_iff_not]
    omega
  · simp [List.mem_range]

/-- Witness for claim C3 at a concrete three-run input with no further
events after the stop call. -/
theorem stop_silences_witness :
    3 ≤ (segmentWeb ("Привет hello мир".toList)).length ∧
    ((runEvents (startSpeak (segmentWeb ("Привет hello мир".toList))) ([Ev.finish, Ev.stop] ++ [])).done = false ∧
      2 ∉ (runEvents (startSpeak (segmentWeb ("Привет hello мир".toList))) ([Ev.finish, Ev.stop] ++ [])).issued) :=
  ⟨by decide, stop_silences ("Привет hello мир".toList) [] (by decide)⟩

/-! Lemmas for empty input. -/

/-- A list of whitespace characters passes unchanged through the
parenthesis-stripping scanner. -/
theorem stripGo_all_ws : ∀ l : List Char, l.all jsWhitespace = true → stripGo false l = l
  | [], _ => rfl
  | c :: rest, h => by
    have h2 := h
    rw [List.all_cons, Bool.and_eq_true] at h2
    have hc : jsWhitespace c = true := h2.1
    have hrest : rest.all jsWhitespace = true := h2.2
    have hne : c ≠ '(' := by
      intro he
      rw [he] at hc
      simp [show jsWhitespace '(' = false from rfl] at hc
    simp only [stripGo, hne, if_false]
    rw [stripGo_all_ws rest hrest]

/-- A list of whitespace characters collapses to nothing after a
whitespace character has been seen. -/
theorem collapseGo_true_all_ws : ∀ l : List Char, l.all jsWhitespace = true →
    collapseGo true l = []
  | [], _ => rfl
  | c :: rest, h => by
    have h2 := h
    rw [List.all_cons, Bool.and_eq_true] at h2
    have hc : jsWhitespace c = true := h2.1
    have hrest : rest.all jsWhitespace = true := h2.2
    simp only [collapseGo, hc, if_true]
    exact collapseGo_true_all_ws rest hrest

/-- Cleaning a list of whitespace characters yields the empty list. -/
theorem all_ws_clean_nil : ∀ l : List Char, l.all jsWhitespace = true → clean l = []
  | [], _ => rfl
  | c :: rest, h => by
    have h2 := h
    rw [List.all_cons, Bool.and_eq_true] at h2
    have hc : jsWhitespace c = true := h2.1
    have hrest : rest.all jsWhitespace = true := h2.2
    unfold clean stripParens collapseWs
    rw [stripGo_all_ws (c :: rest) h]
    simp only [collapseGo, hc, if_true]
    rw [collapseGo_true_all_ws rest hrest]
    rfl

/-- Claim C8.  Empty input: for input that is all whitespace or that
cleans to nothing, segmentation yields zero runs and the speak call issues
no backend call while firing the completion callback immediately. -/
theorem empty_input (s : List Char)
    (h : s.all jsWhitespace = true ∨ clean s = []) :
    segmentWeb s = [] ∧
    startSpeak (segmentWeb s)
      = { groups := [], pending := none, issued := [], done := true, cancelled := false } := by
  have hc : clean s = [] := h.elim (all_ws_clean_nil s) id
  have hseg : segmentWeb s = [] := by
    unfold segmentWeb
    rw [hc]
    rfl
  constructor
  · exact hseg
  · rw [hseg]
    rfl

/-- Witness for claim C8 at the all-whitespace input of three spaces. -/
theorem empty_input_witness :
    ("   ".toList.all jsWhitespace = true) ∧
    (segmentWeb ("   ".toList) = [] ∧
      startSpeak (segmentWeb ("   ".toList))
        = { groups := [], pending := none, issued := [], done := true, cancelled := false }) :=
  ⟨by decide, empty_input ("   ".toList) (Or.inl (by decide))⟩


/-! Equivalence of the two segmenters. -/

/-- The two token classifiers agree up to the tag renaming. -/
theorem tokLang_map (w : List Char) : tokLangWeb w = langMap (tokLangNative w) := by
  by_cases h : isRussian w = true <;>
    simp [tokLangWeb, tokLangNative, langMap, h]

/-- The tag renaming is injective. -/
theorem langMap_inj (a b : NativeLang) : langMap a = langMap b ↔ a = b := by
  cases a <;> cases b <;> simp [langMap]

/-- The two grouping loops agree, run by run, up to the tag renaming. -/
theorem build_agree : ∀ (ts : List (List Char)) (cl : Option NativeLang)
    (buf : List Char) (gs : List RunN),
    buildRunsWeb (cl.map langMap) buf (gs.map mapRunN) ts
      = (buildRunsNative cl buf gs ts).map mapRunN
  | [], cl, buf, gs => by
    by_cases hb : buf.isEmpty
    · simp [buildRunsWeb, buildRunsNative, hb]
    · cases cl <;> simp [buildRunsWeb, buildRunsNative, hb, mapRunN, langMap]
  | w :: rest, cl, buf, gs => by
    by_cases hw : isWsToken w = true
    · simp only [buildRunsWeb, buildRunsNative, hw, if_true]
      cases cl <;> exact build_agree rest _ (buf ++ w) gs
    · cases cl with
      | none =>
        simp only [buildRunsWeb, buildRunsNative, hw, Bool.false_eq_true, if_false,
          Option.map_none']
        rw [tokLang_map w]
        exact build_agree rest (some (tokLangNative w)) w gs
      | some l =>
        simp only [buildRunsWeb, buildRunsNative, hw, Bool.false_eq_true, if_false,
          Option.map_some']
        by_cases hl : tokLangNative w = l
        · have hlw : tokLangWeb w = langMap l := by rw [tokLang_map w, hl]
          simp only [hl, hlw, if_true]
          exact build_agree rest (some l) (buf ++ w) gs
        · have hlw : ¬ tokLangWeb w = langMap l := by
            rw [tokLang_map w]
            exact fun hcon => hl ((langMap_inj _ _).mp hcon)
          simp only [hl, hlw, if_false]
          have hmap : (gs ++ [RunN.mk l buf]).map mapRunN
              = gs.map mapRunN ++ [Run.mk (langMap l) buf] := by
            simp [mapRunN]
          rw [tokLang_map w, ← hmap]
          exact build_agree rest (some (tokLangNative w)) w (gs ++ [RunN.mk l buf])

/-- Claim C10.  Two-target segmenter equivalence: for every input, the web
client segmenter produces exactly the runs of the native client segmenter
with the language tags renamed. -/
theorem segmenters_agree (l : List Char) :
    segmentWeb l = (segmentNative l).map mapRunN := by
  have h := build_agree (tokenize (clean l)) none [] []
  simpa [segmentWeb, segmentNative] using h

/-! Script classification and boundary placement. -/

/-- Counterexample for claim C7: on the example input the code places the
inter-run space at the end of the first run, not at the start of the
second run as the claimed run list states. -/
theorem classification_example_counterexample :
    segmentWeb ("Привет, how are you?".toList)
        = [⟨WebLang.ruRU, "Привет, ".toList⟩, ⟨WebLang.enUS, "how are you?".toList⟩] ∧
    segmentWeb ("Привет, how are you?".toList)
        ≠ [⟨WebLang.ruRU, "Привет,".toList⟩, ⟨WebLang.enUS, " how are you?".toList⟩] := by
  constructor
  · decide
  · decide

/-- Claim C7, amended.  A token is classified primary exactly when it
contains a character of the Cyrillic class, which includes the two letters
outside the main ranges, and the example input segments into two runs with
the inter-run space appended to the first, open, run per the
whitespace-merge rule. -/
theorem classification_amended :
    (∀ w : List Char, tokLangWeb w = WebLang.ruRU ↔ ∃ c ∈ w, isCyrChar c = true) ∧
    isCyrChar 'ё' = true ∧ isCyrChar 'Ё' = true ∧
    segmentWeb ("Привет, how are you?".toList)
        = [⟨WebLang.ruRU, "Привет, ".toList⟩, ⟨WebLang.enUS, "how are you?".toList⟩] := by
  refine ⟨?_, by decide, by decide, by decide⟩
  intro w
  by_cases h : isRussian w = true
  · simp only [tokLangWeb, h, if_true, true_iff]
    rw [isRussian, List.any_eq_true] at h
    exact h
  · simp only [tokLangWeb, h, if_false]
    rw [isRussian] at h
    constructor
    · intro hcon
      exact absurd hcon (by simp)
    · intro hex
      exact absurd (List.any_eq_true.mpr hex) h

/-! Extraction claims. -/

/-- Claim C4.  Extractor totality: extraction is a total function of the
raw text, and whenever the strategy chain produces no parsed value (the
catch path of the source), generateVictorAIResponse returns the fixed
generic default record and fetchWordData returns the record whose
phonetic, examples and translation fields are present and empty. -/
theorem extraction_total (raw : List Char) (h : strategyValue raw = none) :
    generateVictorAIResponse raw = victorCatchDefault ∧
    fetchWordData raw = wordCatchDefault :=
  ⟨by simp [generateVictorAIResponse, h], by simp [fetchWordData, h]⟩

/-- An input with no braces and no fence. -/
def c4input : List Char := "alas, there is no structured data here".toList

/-- Witness for claim C4 at a concrete brace-free, fence-free input. -/
theorem extraction_total_witness :
    strategyValue c4input = none ∧
    (generateVictorAIResponse c4input = victorCatchDefault ∧
      fetchWordData c4input = wordCatchDefault) :=
  ⟨rfl, extraction_total c4input rfl⟩

/-- A parsed object with a valid reply and a corrections value that is a
nonempty string instead of a list. -/
def c5input : List Char :=
  "\x7b\"response\":\"ok\",\"corrections\":\"oops\",\"followUpQuestion\":\"Q\"\x7d".toList

/-- Claim C5 evaluation.  On a payload whose corrections value is a
nonempty string, the code keeps the valid reply but also passes the
malformed string through as the corrections field, because the truthiness
and length checks both succeed on a nonempty string; the declared
interface and the claim say the field is omitted unless it is a list. -/
theorem corrections_string_included :
    (generateVictorAIResponse c5input).response = Json.str "ok" ∧
    (generateVictorAIResponse c5input).corrections = some (Json.str "oops") :=
  ⟨rfl, rfl⟩

/-- A parsed object whose tip fields are strings instead of objects. -/
def c9input : List Char :=
  "\x7b\"response\":\"ok\",\"vocabularyTip\":\"word\",\"pronunciationTip\":\"tip\",\"followUpQuestion\":\"Q\"\x7d".toList

/-- Claim C9 evaluation.  On a payload whose tip fields are nonempty
strings, the code includes both strings, because the logical-or guard only
tests truthiness, not object shape; the declared interface and the claim
say a non-object value is omitted. -/
theorem tips_string_included :
    (generateVictorAIResponse c9input).vocabularyTip = some (Json.str "word") ∧
    (generateVictorAIResponse c9input).pronunciationTip = some (Json.str "tip") :=
  ⟨rfl, rfl⟩

/-- Claim C6, amended.  Strategy fallthrough as implemented: the fence
strategy is consulted exactly when the brace strategy finds no match at
all; when the brace strategy finds a substring whose parse fails, both
extractors fall back directly to their defaults without attempting the
fence strategy. -/
theorem extraction_fallthrough (raw : List Char) :
    (braceMatch raw = none →
      strategyValue raw = (fenceMatch raw).bind Json.parseChars) ∧
    (∀ s, braceMatch raw = some s → Json.parseChars s = none →
      generateVictorAIResponse raw = victorCatchDefault ∧
      fetchWordData raw = wordCatchDefault) := by
  constructor
  · intro h
    cases hf : fenceMatch raw <;> simp [strategyValue, h, hf]
  · intro s hs hp
    have hsv : strategyValue raw = none := by simp [strategyValue, hs, hp]
    exact ⟨by simp [generateVictorAIResponse, hsv], by simp [fetchWordData, hsv]⟩

/-- An input where the greedy brace match succeeds but fails to parse,
while a well-formed fenced block is present. -/
def c6input : List Char :=
  "\x7boops\x7d ```json \x7b\"phonetic\":\"f\"\x7d ```".toList

/-- The substring found by the greedy brace match on that input. -/
def c6brace : List Char :=
  "\x7boops\x7d ```json \x7b\"phonetic\":\"f\"\x7d".toList

/-- Counterexample for claim C6: the brace strategy matches and its parse
fails, the fence strategy would succeed, yet extraction returns the
defaults, so the fence strategy is not attempted after a brace-strategy
parse failure. -/
theorem fallthrough_counterexample :
    braceMatch c6input = some c6brace ∧
    Json.parseChars c6brace = none ∧
    (fenceMatch c6input).bind Json.parseChars
        = some (Json.obj [("phonetic", Json.str "f")]) ∧
    fetchWordData c6input = wordCatchDefault :=
  ⟨rfl, rfl, rfl, rfl⟩

/-- Witness for the amended claim C6 at the same concrete input. -/
theorem fallthrough_witness :
    braceMatch c6input = some c6brace ∧ Json.parseChars c6brace = none ∧
    generateVictorAIResponse c6input = victorCatchDefault ∧
    fetchWordData c6input = wordCatchDefault :=
  ⟨rfl, rfl, ((extraction_fallthrough c6input).2 c6brace rfl rfl).1,
    ((extraction_fallthrough c6input).2 c6brace rfl rfl).2⟩

end VictorAI
